import Mathlib

/-! Verification of the MeshSense serial transport core: a shallow embedding of `src/api/src/lib/nodeSerialConnection.ts`:

* the Meshtastic serial frame encoder (the framing of `writeToRadio`),
* the receive-side frame assembly loop (`handleIncomingData` and
  `findMagicBytes`), with its 4096-byte buffer cap,
* an event-step model of the connection lifecycle (connect, disconnect,
  debounced unexpected-disconnect handling, heartbeat interval).

Bytes are modelled as `Nat` (values 0–255 on the wire); JavaScript `Buffer`
element writes truncate modulo 256, which the encoder reproduces faithfully.
-/

namespace MeshSense

/-- Constant `SERIAL_MAGIC_BYTE1 = 0x94`. -/
def SERIAL_MAGIC_BYTE1 : Nat := 0x94

/-- Constant `SERIAL_MAGIC_BYTE2 = 0xc3`. -/
def SERIAL_MAGIC_BYTE2 : Nat := 0xc3

/-- The frame built by `writeToRadio`:
`frame = [0x94, 0xc3, 0x00, data.length, ...data]`.
JavaScript `Buffer` element assignment (`frame[3] = data.length`) stores the
value modulo 256, so the length byte is `data.length % 256` while the whole
payload is still copied into the frame. -/
def encodeFrame (data : List Nat) : List Nat :=
  SERIAL_MAGIC_BYTE1 :: SERIAL_MAGIC_BYTE2 :: 0 :: (data.length % 256) :: data

/-- Function `findMagicBytes`: index of the first `i` with `buf[i] = 0x94` and
`buf[i+1] = 0xc3` (scanning `i` from `0` to `buf.length - 2`), `none` when
there is no such pair (the TypeScript function returns `-1`). -/
def findMagicBytes : List Nat → Option Nat
  | a :: b :: rest =>
    if a = SERIAL_MAGIC_BYTE1 ∧ b = SERIAL_MAGIC_BYTE2 then some 0
    else
      match findMagicBytes (b :: rest) with
      | some i => some (i + 1)
      | none => none
  | _ => none

/-- The `while (this.receiveBuffer.length >= 4)` loop body of
`handleIncomingData`, as a fuel-indexed recursion (each recursive call
consumes a complete frame of at least 4 bytes, so fuel `buf.length + 1`
always suffices).  Returns the emitted payloads in order and the retained
buffer when the loop exits. -/
def processLoopF : Nat → List Nat → List (List Nat) × List Nat
  | 0, buf => ([], buf)
  | fuel + 1, buf =>
    if buf.length < 4 then ([], buf)
    else
      match findMagicBytes buf with
      | none =>
        -- no magic bytes: clear buffer except last byte, break
        ([], if buf.length > 1 then buf.drop (buf.length - 1) else buf)
      | some i =>
        -- discard any data before the magic bytes
        let buf1 := buf.drop i
        if buf1.length < 4 then ([], buf1)
        else
          let payloadLength := (buf1.getD 2 0) <<< 8 ||| buf1.getD 3 0
          if buf1.length < 4 + payloadLength then ([], buf1)
          else
            let payload := (buf1.drop 4).take payloadLength
            let rest := buf1.drop (4 + payloadLength)
            let r := processLoopF fuel rest
            (payload :: r.1, r.2)

/-- Function `handleIncomingData`: append the incoming bytes to the retained buffer,
run the frame-extraction loop, then reset the buffer to empty when it
exceeds 4096 bytes.  Returns the payloads handed to `handleFromRadio` (in
order) and the new retained buffer. -/
def handleIncomingData (state data : List Nat) : List (List Nat) × List Nat :=
  let buf := state ++ data
  let r := processLoopF (buf.length + 1) buf
  (r.1, if r.2.length > 4096 then [] else r.2)

/-- Feed a sequence of chunks to `handleIncomingData` one `data` event at a
time, starting from buffer `buf`; collects all emitted payloads in order and
the final retained buffer. -/
def feedAll (buf : List Nat) : List (List Nat) → List (List Nat) × List Nat
  | [] => ([], buf)
  | c :: cs =>
    let r := handleIncomingData buf c
    let r2 := feedAll r.2 cs
    (r.1 ++ r2.1, r2.2)

/-- The byte stream of consecutive encoded frames. -/
def encodeStream : List (List Nat) → List Nat
  | [] => []
  | p :: fs => encodeFrame p ++ encodeStream fs

/-- Concatenation of a chunk list. -/
def flattenChunks : List (List Nat) → List Nat
  | [] => []
  | c :: cs => c ++ flattenChunks cs

/-- The retained buffer between feeds: either nothing is pending, or it is a
strict prefix of the encoding of the next expected frame. -/
def partialFrame (r : List Nat) (fs : List (List Nat)) : Prop :=
  (fs = [] ∧ r = []) ∨
    ∃ q fs', fs = q :: fs' ∧ r.length < 4 + q.length ∧ r <+: encodeFrame q

/-! Connection lifecycle model.

The mutable fields of `NodeSerialConnection` that the lifecycle logic reads
and writes, together with the open state of the hardware handle.  `status` is the
last value passed to `updateDeviceStatus`. -/

/-- The device-status values `NodeSerialConnection` reports. -/
inductive DeviceStatus
  | DeviceConnecting
  | DeviceConnected
  | DeviceDisconnected
deriving DecidableEq, Repr

/-- Connection-manager state: last reported status, whether the serial
handle is open, the two debounce flags, whether the heartbeat interval is
set, and whether a debounce recheck (`setTimeout`) is outstanding. -/
structure Conn where
  status : DeviceStatus
  portOpen : Bool
  disconnectPending : Bool
  intentionalDisconnect : Bool
  heartbeatOn : Bool
  recheckScheduled : Bool
deriving DecidableEq, Repr

/-- Externally visible effects of one event. -/
inductive Output
  | statusNote (s : DeviceStatus)
  | heartbeatInvoked
  | openInitiated
deriving DecidableEq, Repr

/-- Discrete events processed by the single-threaded event loop: hardware
`error` / `close` callbacks, the 100 ms debounce recheck firing (with the
open state of the handle at that moment), `connect` (its synchronous part, the
open result arriving later as `openResult`), `disconnect()`, and a heartbeat
interval tick. -/
inductive Event
  | errorSignal
  | closeSignal
  | debounceRecheck (portOpenNow : Bool)
  | connectCall
  | openResult (ok : Bool)
  | disconnectCall
  | heartbeatTick
deriving DecidableEq, Repr

/-- Function `handleUnexpectedDisconnect`: return early when a disconnect is already
pending, otherwise set the pending flag and schedule the 100 ms recheck. -/
def handleUnexpectedDisconnect (s : Conn) : Conn :=
  if s.disconnectPending then s
  else { s with disconnectPending := true, recheckScheduled := true }

/-- The body of the `setTimeout` callback in `handleUnexpectedDisconnect`:
if the port is still closed, report `DeviceDisconnected` and stop the
heartbeat (the pending flag stays set); if the port is open again the event
was spurious and only the pending flag is cleared. -/
def debounceRecheckStep (s : Conn) (openNow : Bool) : Conn × List Output :=
  if s.recheckScheduled then
    let s0 := { s with recheckScheduled := false, portOpen := openNow }
    if openNow then ({ s0 with disconnectPending := false }, [])
    else ({ s0 with status := .DeviceDisconnected, heartbeatOn := false },
          [.statusNote .DeviceDisconnected])
  else (s, [])

/-- The synchronous part of `connect()`: clear both flags, report
`DeviceConnecting`, replace the handle with a fresh (not yet open) port and
initiate `port.open`. -/
def connectStep (s : Conn) : Conn × List Output :=
  ({ s with intentionalDisconnect := false, disconnectPending := false,
            status := .DeviceConnecting, portOpen := false },
   [.statusNote .DeviceConnecting, .openInitiated])

/-- Method `disconnect`: set the intentional flag, set the pending flag, stop the
heartbeat synchronously, then close the port; the close callback reports
`DeviceDisconnected` and clears the pending flag. -/
def disconnectStep (s : Conn) : Conn × List Output :=
  ({ s with intentionalDisconnect := true, heartbeatOn := false,
            portOpen := false, status := .DeviceDisconnected,
            disconnectPending := false },
   [.statusNote .DeviceDisconnected])

/-- One event of the single-threaded event loop.  The `error` handler calls
`handleUnexpectedDisconnect` only when no disconnect is pending and the port
is not open; the `close` handler only when the disconnect is not intentional
and none is pending.  A heartbeat tick invokes the keep-alive action exactly
when the interval is still set. -/
def step (s : Conn) : Event → Conn × List Output
  | .errorSignal =>
    if !s.disconnectPending && !s.portOpen then (handleUnexpectedDisconnect s, [])
    else (s, [])
  | .closeSignal =>
    if !s.intentionalDisconnect && !s.disconnectPending then
      (handleUnexpectedDisconnect s, [])
    else (s, [])
  | .debounceRecheck openNow => debounceRecheckStep s openNow
  | .connectCall => connectStep s
  | .openResult true =>
    ({ s with portOpen := true, status := .DeviceConnected, heartbeatOn := true },
     [.statusNote .DeviceConnected])
  | .openResult false =>
    ({ s with status := .DeviceDisconnected }, [.statusNote .DeviceDisconnected])
  | .disconnectCall => disconnectStep s
  | .heartbeatTick =>
    if s.heartbeatOn then (s, [.heartbeatInvoked]) else (s, [])

/-- Run a sequence of events, collecting every output in order. -/
def runTrace (s : Conn) : List Event → Conn × List Output
  | [] => (s, [])
  | e :: es =>
    let r := step s e
    let r2 := runTrace r.1 es
    (r2.1, r.2 ++ r2.2)

/-! Codec lemmas. -/

theorem findMagicBytes_magic (rest : List Nat) :
    findMagicBytes (SERIAL_MAGIC_BYTE1 :: SERIAL_MAGIC_BYTE2 :: rest) = some 0 := by
  simp [findMagicBytes]

theorem encodeFrame_length (p : List Nat) :
    (encodeFrame p).length = 4 + p.length := by
  simp [encodeFrame]; omega

theorem processLoopF_nil (fuel : Nat) : processLoopF fuel [] = ([], []) := by
  cases fuel <;> simp [processLoopF]

theorem encodeStream_append (a b : List (List Nat)) :
    encodeStream (a ++ b) = encodeStream a ++ encodeStream b := by
  induction a with
  | nil => simp [encodeStream]
  | cons q a ih => simp [encodeStream, ih]

theorem drop_four_cons (a b c d : Nat) (l : List Nat) :
    List.drop 4 (a :: b :: c :: d :: l) = l := rfl

theorem drop_four_add_cons (a b c d : Nat) (n : Nat) (l : List Nat) :
    List.drop (4 + n) (a :: b :: c :: d :: l) = List.drop n l := by
  rw [Nat.add_comm]; rfl

theorem getD_two_cons (a b c d : Nat) (l : List Nat) :
    List.getD (a :: b :: c :: d :: l) 2 0 = c := rfl

theorem getD_three_cons (a b c d : Nat) (l : List Nat) :
    List.getD (a :: b :: c :: d :: l) 3 0 = d := rfl

/-- A frame header whose announced payload length exceeds the bytes present
stalls the loop: the buffer is retained unchanged (partial payload). -/
theorem processLoopF_stall (f n : Nat) (t : List Nat) (hn : t.length < n) :
    processLoopF (f + 1)
        (SERIAL_MAGIC_BYTE1 :: SERIAL_MAGIC_BYTE2 :: 0 :: n :: t)
      = ([], SERIAL_MAGIC_BYTE1 :: SERIAL_MAGIC_BYTE2 :: 0 :: n :: t) := by
  simp only [processLoopF, findMagicBytes_magic, List.length_cons,
    List.drop_zero, getD_two_cons, getD_three_cons,
    Nat.zero_shiftLeft, Nat.zero_or]
  have hc1 : ¬ (t.length + 1 + 1 + 1 + 1 < 4) := by omega
  have hc2 : t.length + 1 + 1 + 1 + 1 < 4 + n := by omega
  rw [if_neg hc1, if_pos hc2, ite_self]

/-- A complete frame at the head of the buffer is consumed: its payload is
emitted and the loop continues on the rest of the buffer. -/
theorem processLoopF_extract (f : Nat) (q buf2 : List Nat) :
    processLoopF (f + 1)
        (SERIAL_MAGIC_BYTE1 :: SERIAL_MAGIC_BYTE2 :: 0 :: q.length :: (q ++ buf2))
      = (q :: (processLoopF f buf2).1, (processLoopF f buf2).2) := by
  simp only [processLoopF, findMagicBytes_magic, List.length_cons,
    List.drop_zero, getD_two_cons, getD_three_cons,
    Nat.zero_shiftLeft, Nat.zero_or]
  have hc1 : ¬ ((q ++ buf2).length + 1 + 1 + 1 + 1 < 4) := by omega
  have hc2 : ¬ ((q ++ buf2).length + 1 + 1 + 1 + 1 < 4 + q.length) := by
    simp only [List.length_append]; omega
  rw [if_neg hc1, if_neg hc2]
  rw [drop_four_cons, drop_four_add_cons, List.take_left, List.drop_left]
  rw [if_neg hc1]

theorem prefix_of_append_of_le {l l₁ l₂ : List Nat} (h : l <+: l₁ ++ l₂)
    (hl : l.length ≤ l₁.length) : l <+: l₁ :=
  List.prefix_of_prefix_length_le h (List.prefix_append l₁ l₂) hl

/-- Running the extraction loop on any prefix of a stream of well-formed
frames (payloads of at most 255 bytes) emits exactly the completely present
frames, in order, and retains a strict prefix of the next frame. -/
theorem processLoopF_splits :
    ∀ (fuel : Nat) (fs : List (List Nat)) (buf : List Nat),
      (∀ p ∈ fs, p.length ≤ 255) → buf <+: encodeStream fs →
      buf.length < fuel →
      ∃ fs1 fs2 r, fs = fs1 ++ fs2 ∧ processLoopF fuel buf = (fs1, r) ∧
        buf = encodeStream fs1 ++ r ∧ partialFrame r fs2 := by
  intro fuel
  induction fuel with
  | zero => intro fs buf _ _ h; omega
  | succ f ih =>
    intro fs buf hlen hpre hf
    cases fs with
    | nil =>
      have hb : buf = [] := by
        simpa [encodeStream] using List.prefix_nil.mp (by simpa [encodeStream] using hpre)
      subst hb
      exact ⟨[], [], [], rfl, by simp [processLoopF], by simp [encodeStream],
        Or.inl ⟨rfl, rfl⟩⟩
    | cons q fs' =>
      have hq : q.length ≤ 255 := hlen q (by simp)
      have hpre' : buf <+: encodeFrame q ++ encodeStream fs' := by
        simpa [encodeStream] using hpre
      by_cases h4 : buf.length < 4
      · refine ⟨[], q :: fs', buf, rfl, by simp [processLoopF, h4],
          by simp [encodeStream], Or.inr ⟨q, fs', rfl, by omega, ?_⟩⟩
        exact prefix_of_append_of_le hpre' (by rw [encodeFrame_length]; omega)
      · by_cases hfull : buf.length < 4 + q.length
        · -- a partial frame: the loop stalls and retains the buffer
          have hpre1 : buf <+: encodeFrame q :=
            prefix_of_append_of_le hpre' (by rw [encodeFrame_length]; omega)
          obtain ⟨z, hz⟩ := hpre1
          match buf, h4, hfull, hz with
          | b0 :: b1 :: b2 :: b3 :: t, h4, hfull, hz =>
            simp only [encodeFrame, List.cons_append, List.cons.injEq] at hz
            obtain ⟨rfl, rfl, rfl, rfl, hqz⟩ := hz
            have hmod : q.length % 256 = q.length := Nat.mod_eq_of_lt (by omega)
            have hn : t.length < q.length % 256 := by
              simp only [List.length_cons] at hfull; omega
            refine ⟨[], q :: fs', _, rfl, processLoopF_stall f _ t hn,
              by simp [encodeStream], Or.inr ⟨q, fs', rfl, ?_, ?_⟩⟩
            · simpa using hfull
            · exact ⟨z, by simp [encodeFrame, hqz]⟩
        · -- a complete frame at the head: extract it and recurse
          have hfr : encodeFrame q <+: buf :=
            List.prefix_of_prefix_length_le (List.prefix_append _ _) hpre'
              (by rw [encodeFrame_length]; omega)
          obtain ⟨buf2, hb⟩ := hfr
          subst hb
          have hb2pre : buf2 <+: encodeStream fs' := by
            obtain ⟨z, hz⟩ := hpre'
            rw [List.append_assoc] at hz
            exact ⟨z, List.append_cancel_left hz⟩
          have hcons : encodeFrame q ++ buf2
              = SERIAL_MAGIC_BYTE1 :: SERIAL_MAGIC_BYTE2 :: 0 :: q.length :: (q ++ buf2) := by
            simp [encodeFrame, Nat.mod_eq_of_lt (show q.length < 256 by omega)]
          have hlen2 : buf2.length < f := by
            have h1 : (encodeFrame q ++ buf2).length = 4 + q.length + buf2.length := by
              rw [List.length_append, encodeFrame_length]
            omega
          obtain ⟨fs1, fs2, r, hfs, hpl, hbuf, hpf⟩ :=
            ih fs' buf2 (fun p hp => hlen p (by simp [hp])) hb2pre hlen2
          refine ⟨q :: fs1, fs2, r, by simp [hfs], ?_, ?_, hpf⟩
          · rw [hcons, processLoopF_extract f q buf2, hpl]
          · rw [encodeStream, List.append_assoc, ← hbuf]

/-- Feeding any chunking of a stream of well-formed frames to
`handleIncomingData`, starting from a retained buffer that is a strict
prefix of the next frame, emits exactly the frames of the stream and ends
with an empty buffer. -/
theorem feedAll_stream :
    ∀ (chunks fs : List (List Nat)) (r : List Nat),
      (∀ p ∈ fs, p.length ≤ 255) →
      r ++ flattenChunks chunks = encodeStream fs →
      partialFrame r fs →
      feedAll r chunks = (fs, []) := by
  intro chunks
  induction chunks with
  | nil =>
    intro fs r hlen hcat hpf
    simp only [flattenChunks, List.append_nil] at hcat
    rcases hpf with ⟨hfs, hr⟩ | ⟨q, fs', hfs, hlt, _⟩
    · subst hfs; subst hr; simp [feedAll]
    · exfalso
      have h1 := congrArg List.length hcat
      rw [hfs, encodeStream, List.length_append, encodeFrame_length] at h1
      omega
  | cons c cs ih =>
    intro fs r hlen hcat hpf
    have hpre : (r ++ c) <+: encodeStream fs :=
      ⟨flattenChunks cs, by simpa [flattenChunks, List.append_assoc] using hcat⟩
    obtain ⟨fs1, fs2, r', hfs, hpl, hbuf, hpf'⟩ :=
      processLoopF_splits ((r ++ c).length + 1) fs (r ++ c) hlen hpre (by omega)
    have hr' : r'.length ≤ 4096 := by
      rcases hpf' with ⟨_, hr0⟩ | ⟨q, fs2', hfs2, hlt, _⟩
      · rw [hr0]; simp
      · have hq : q.length ≤ 255 := hlen q (by rw [hfs, hfs2]; simp)
        omega
    have hnr : ¬ (r'.length > 4096) := by omega
    have hpl' : processLoopF (r.length + c.length + 1) (r ++ c) = (fs1, r') := by
      rw [← List.length_append]; exact hpl
    have hhid : handleIncomingData r c = (fs1, r') := by
      simp [handleIncomingData, hpl', if_neg hnr]
    have hrest : r' ++ flattenChunks cs = encodeStream fs2 := by
      rw [hfs, encodeStream_append] at hcat
      rw [flattenChunks] at hcat
      have h2 : (r ++ c) ++ flattenChunks cs
          = encodeStream fs1 ++ encodeStream fs2 := by
        simpa [List.append_assoc] using hcat
      rw [hbuf, List.append_assoc] at h2
      exact List.append_cancel_left h2
    have hfin := ih fs2 r' (fun p hp => hlen p (by rw [hfs]; simp [hp])) hrest hpf'
    simp [feedAll, hhid, hfin, hfs]

/-- Generalisation of `processLoopF_stall` to an arbitrary high-length byte
`m`: the announced length is `(m <<< 8) ||| n` and a buffer with fewer bytes
than that stalls unchanged. -/
theorem processLoopF_stallGen (f m n : Nat) (t : List Nat)
    (hn : t.length < m <<< 8 ||| n) :
    processLoopF (f + 1)
        (SERIAL_MAGIC_BYTE1 :: SERIAL_MAGIC_BYTE2 :: m :: n :: t)
      = ([], SERIAL_MAGIC_BYTE1 :: SERIAL_MAGIC_BYTE2 :: m :: n :: t) := by
  simp only [processLoopF, findMagicBytes_magic, List.length_cons,
    List.drop_zero, getD_two_cons, getD_three_cons]
  have hc1 : ¬ (t.length + 1 + 1 + 1 + 1 < 4) := by omega
  have hc2 : t.length + 1 + 1 + 1 + 1 < 4 + (m <<< 8 ||| n) := by omega
  rw [if_neg hc1, if_pos hc2, ite_self]

/-- When `noise` contains no magic pair, the first magic occurrence in
`noise ++ 0x94 :: 0xc3 :: rest` is exactly at offset `noise.length`. -/
theorem findMagicBytes_append (noise rest : List Nat)
    (h : findMagicBytes noise = none) :
    findMagicBytes (noise ++ (SERIAL_MAGIC_BYTE1 :: SERIAL_MAGIC_BYTE2 :: rest))
      = some noise.length := by
  induction noise with
  | nil => simpa using findMagicBytes_magic rest
  | cons a t ih =>
    cases t with
    | nil =>
      have hne : ¬ (a = SERIAL_MAGIC_BYTE1 ∧
          SERIAL_MAGIC_BYTE1 = SERIAL_MAGIC_BYTE2) := by
        rintro ⟨_, hc⟩
        simp [SERIAL_MAGIC_BYTE1, SERIAL_MAGIC_BYTE2] at hc
      rw [List.cons_append, List.nil_append, findMagicBytes, if_neg hne,
        findMagicBytes_magic rest]
      simp
    | cons b t' =>
      rw [findMagicBytes] at h
      by_cases hab : a = SERIAL_MAGIC_BYTE1 ∧ b = SERIAL_MAGIC_BYTE2
      · rw [if_pos hab] at h; exact absurd h (by simp)
      · rw [if_neg hab] at h
        have ht : findMagicBytes (b :: t') = none := by
          cases hfb : findMagicBytes (b :: t') with
          | none => rfl
          | some i => rw [hfb] at h; exact absurd h (by simp)
        have hih := ih ht
        rw [List.cons_append] at hih
        rw [List.cons_append, List.cons_append]
        rw [findMagicBytes, if_neg hab, hih]
        simp

/-- The loop discards noise bytes with no magic pair in front of a magic
sequence: processing is the same as starting at the magic bytes (as long as
at least a full header could follow). -/
theorem processLoopF_skip_noise (f : Nat) (noise rest : List Nat)
    (hnm : findMagicBytes noise = none) (hr : 2 ≤ rest.length) :
    processLoopF (f + 1)
        (noise ++ (SERIAL_MAGIC_BYTE1 :: SERIAL_MAGIC_BYTE2 :: rest))
      = processLoopF (f + 1) (SERIAL_MAGIC_BYTE1 :: SERIAL_MAGIC_BYTE2 :: rest) := by
  have hm1 := findMagicBytes_append noise rest hnm
  have hm2 := findMagicBytes_magic rest
  have hc1 : ¬ ((noise ++ (SERIAL_MAGIC_BYTE1 :: SERIAL_MAGIC_BYTE2 :: rest)).length < 4) := by
    simp only [List.length_append, List.length_cons]; omega
  have hc2 : ¬ ((SERIAL_MAGIC_BYTE1 :: SERIAL_MAGIC_BYTE2 :: rest).length < 4) := by
    simp only [List.length_cons]; omega
  simp only [processLoopF, hm1, hm2, if_neg hc1, if_neg hc2, List.drop_zero,
    List.drop_left]

/-- Processing a complete stream of well-formed frames emits exactly those
frames and leaves nothing behind. -/
theorem processLoopF_stream (fuel : Nat) (fs : List (List Nat))
    (hlen : ∀ p ∈ fs, p.length ≤ 255) (hf : (encodeStream fs).length < fuel) :
    processLoopF fuel (encodeStream fs) = (fs, []) := by
  obtain ⟨fs1, fs2, r, hfs, hpl, hbuf, hpf⟩ :=
    processLoopF_splits fuel fs (encodeStream fs) hlen List.prefix_rfl hf
  rcases hpf with ⟨hfs2, hr⟩ | ⟨q, fs2', hfs2, hlt, _⟩
  · subst hr
    rw [hfs2, List.append_nil] at hfs
    rw [hpl, ← hfs]
  · exfalso
    have h1 := congrArg List.length hbuf
    rw [hfs, hfs2, encodeStream_append, List.length_append, List.length_append] at h1
    have h2 : (encodeStream (q :: fs2')).length = r.length := by omega
    rw [encodeStream, List.length_append, encodeFrame_length] at h2
    omega

theorem partialFrame_nil (fs : List (List Nat)) : partialFrame [] fs := by
  cases fs with
  | nil => exact Or.inl ⟨rfl, rfl⟩
  | cons q fs' =>
    exact Or.inr ⟨q, fs', rfl, by simp only [List.length_nil]; omega,
      List.nil_prefix⟩

/-! Claim theorems for the frame codec. -/

/-- C1: For every payload of length 0 to 255 bytes, feeding the exact
byte sequence produced by the framing of `writeToRadio`
(`0x94, 0xc3, 0x00, length, payload`) to `handleIncomingData` starting from
an empty receive buffer emits exactly one payload equal to the original and
leaves the retained buffer empty. -/
theorem roundTrip_frame (p : List Nat) (hp : p.length ≤ 255) :
    handleIncomingData [] (encodeFrame p) = ([p], []) := by
  have h := feedAll_stream [encodeFrame p] [p] []
    (by intro q hq; simp at hq; subst hq; exact hp)
    (by simp [flattenChunks, encodeStream])
    (partialFrame_nil [p])
  simpa [feedAll] using h

/-- Witness for C1 at the example payload of the spec, `[0x7a, 0x01]`. -/
theorem roundTrip_frame_witness :
    encodeFrame [0x7A, 0x01] = [0x94, 0xC3, 0x00, 0x02, 0x7A, 0x01] ∧
    handleIncomingData [] [0x94, 0xC3, 0x00, 0x02, 0x7A, 0x01]
      = ([[0x7A, 0x01]], []) := by
  refine ⟨by decide, ?_⟩
  have h := roundTrip_frame [0x7A, 0x01] (by decide)
  rwa [(by decide : encodeFrame [0x7A, 0x01]
    = [0x94, 0xC3, 0x00, 0x02, 0x7A, 0x01])] at h

/-- C2: For every sequence of correctly encoded frames and every
splitting of their concatenated bytes into chunks, feeding the chunks in
order to `handleIncomingData` starting from an empty receive buffer
delivers exactly the original payloads in order — the same result as
feeding the whole concatenation in one call. -/
theorem chunk_invariance (fs chunks : List (List Nat))
    (hlen : ∀ p ∈ fs, p.length ≤ 255)
    (hcat : flattenChunks chunks = encodeStream fs) :
    feedAll [] chunks = (fs, []) ∧
    handleIncomingData [] (encodeStream fs) = (fs, []) := by
  constructor
  · exact feedAll_stream chunks fs [] hlen (by simpa using hcat)
      (partialFrame_nil fs)
  · have h := feedAll_stream [encodeStream fs] fs []
      hlen (by simp [flattenChunks]) (partialFrame_nil fs)
    simpa [feedAll] using h

/-- Witness for C2: the frame for `[0x7a, 0x01]` fed one byte at a time. -/
theorem chunk_invariance_witness :
    feedAll [] [[0x94], [0xC3], [0x00], [0x02], [0x7A], [0x01]]
      = ([[0x7A, 0x01]], []) :=
  (chunk_invariance [[0x7A, 0x01]] [[0x94], [0xC3], [0x00], [0x02], [0x7A], [0x01]]
    (by decide) (by decide)).1

set_option maxRecDepth 4000

/-- C4, code bug: `writeToRadio` does not reject a payload longer than
255 bytes: `frame[3] = data.length` silently truncates the length byte
modulo 256 while still copying every payload byte into the frame.  At the
failing input of 256 bytes the emitted frame carries length byte `0`
followed by all 256 payload bytes, and a receiver decoding that frame
recovers an empty payload plus garbage — not the original. -/
theorem writeToRadio_truncates_256 :
    (encodeFrame (List.replicate 256 7)).getD 3 0 = 0 ∧
    (encodeFrame (List.replicate 256 7)).length = 260 ∧
    handleIncomingData [] (encodeFrame (List.replicate 256 7)) = ([[]], [7]) := by
  decide

/-- C6 counterexample: A buffer of length 2 with no magic sequence is
retained unchanged: `handleIncomingData` never trims a buffer shorter than
4 bytes (the loop requires `receiveBuffer.length >= 4`), contradicting the
claim that every no-magic buffer of length ≥ 2 is cut to its last byte. -/
theorem noMagic_short_buffer_kept :
    handleIncomingData [] [0, 1] = ([], [0, 1]) ∧
    (handleIncomingData [] [0, 1]).2 ≠ [1] := by
  decide

/-- C6, amended: For every receive buffer of length at least 4 that
contains no occurrence of the magic pair `0x94 0xc3`, one decoding pass
discards all but the last byte and produces zero frames. -/
theorem noMagic_keeps_last_byte (state data : List Nat)
    (h4 : 4 ≤ (state ++ data).length)
    (hm : findMagicBytes (state ++ data) = none) :
    handleIncomingData state data
      = ([], (state ++ data).drop ((state ++ data).length - 1)) := by
  have hc1 : ¬ ((state ++ data).length < 4) := by omega
  have hc2 : (state ++ data).length > 1 := by omega
  have hproc : processLoopF ((state ++ data).length + 1) (state ++ data)
      = ([], (state ++ data).drop ((state ++ data).length - 1)) := by
    simp only [processLoopF, hm, if_neg hc1, if_pos hc2]
  have hc3 : ¬ (((state ++ data).drop ((state ++ data).length - 1)).length > 4096) := by
    rw [List.length_drop]; omega
  simp only [handleIncomingData, hproc, if_neg hc3]

/-- Witness for the amended C6 at the concrete buffer `[0, 0, 0, 0]`. -/
theorem noMagic_keeps_last_byte_witness :
    handleIncomingData [] [0, 0, 0, 0] = ([], [0]) := by
  have h := noMagic_keeps_last_byte [] [0, 0, 0, 0] (by decide) (by decide)
  simpa using h

/-- C7: After every `handleIncomingData` call the retained receive
buffer has length at most 4096; the emitted frames are exactly those of the
processing loop (the overflow reset never swallows an emitted frame); and
when the loop leaves more than 4096 bytes the buffer is replaced with an
empty one. -/
theorem buffer_bounded (state data : List Nat) :
    (handleIncomingData state data).2.length ≤ 4096 ∧
    (handleIncomingData state data).1
      = (processLoopF ((state ++ data).length + 1) (state ++ data)).1 ∧
    ((processLoopF ((state ++ data).length + 1) (state ++ data)).2.length > 4096 →
      (handleIncomingData state data).2 = []) := by
  refine ⟨?_, rfl, ?_⟩
  · simp only [handleIncomingData]
    split
    · simp
    · omega
  · intro h
    simp only [handleIncomingData, if_pos h]

/-- Witness for C7: a frame header announcing an 8192-byte payload followed
by only 4093 bytes stalls the loop with a 4097-byte buffer, which the cap
resets to empty. -/
theorem buffer_bounded_witness :
    (handleIncomingData []
      (SERIAL_MAGIC_BYTE1 :: SERIAL_MAGIC_BYTE2 :: 0x20 :: 0 :: List.replicate 4093 7)).2
      = [] := by
  have hstall := processLoopF_stallGen
    (SERIAL_MAGIC_BYTE1 :: SERIAL_MAGIC_BYTE2 :: 0x20 :: 0 :: List.replicate 4093 7).length
    0x20 0 (List.replicate 4093 7)
    (by rw [List.length_replicate]; decide)
  have h := (buffer_bounded []
    (SERIAL_MAGIC_BYTE1 :: SERIAL_MAGIC_BYTE2 :: 0x20 :: 0 :: List.replicate 4093 7)).2.2
  apply h
  rw [List.nil_append, hstall]
  simp only [List.length_cons, List.length_replicate]
  omega

/-- C8: Noise bytes (containing no magic pair) preceding a valid frame
stream are discarded: decoding emits exactly the payloads of the stream, so no
discarded noise byte is ever included in any emitted payload. -/
theorem noise_discarded (noise p : List Nat) (fs : List (List Nat))
    (hnm : findMagicBytes noise = none)
    (hlen : ∀ q ∈ p :: fs, q.length ≤ 255) :
    handleIncomingData [] (noise ++ encodeStream (p :: fs)) = (p :: fs, []) := by
  have hstream : encodeStream (p :: fs)
      = SERIAL_MAGIC_BYTE1 :: SERIAL_MAGIC_BYTE2 ::
          (0 :: (p.length % 256) :: (p ++ encodeStream fs)) := by
    simp [encodeStream, encodeFrame]
  have hr2 : 2 ≤ (0 :: (p.length % 256) :: (p ++ encodeStream fs)).length := by
    simp
  simp only [handleIncomingData, List.nil_append]
  rw [hstream]
  rw [processLoopF_skip_noise _ noise _ hnm hr2]
  rw [← hstream]
  rw [processLoopF_stream _ (p :: fs) hlen
    (by rw [List.length_append]; omega)]
  simp

/-- Witness for C8: noise `[1, 2, 3]` before the frame for `[9]`. -/
theorem noise_discarded_witness :
    handleIncomingData [] [1, 2, 3, 0x94, 0xC3, 0x00, 0x01, 9] = ([[9]], []) := by
  have h := noise_discarded [1, 2, 3] [9] [] (by decide) (by decide)
  rwa [(by decide : ([1, 2, 3] : List Nat) ++ encodeStream [[9]]
    = [1, 2, 3, 0x94, 0xC3, 0x00, 0x01, 9])] at h

/-! Lifecycle lemmas. -/

/-- A healthy connected state: port open, heartbeat running, no pending or
intentional disconnect. -/
def connectedState : Conn :=
  { status := .DeviceConnected, portOpen := true, disconnectPending := false,
    intentionalDisconnect := false, heartbeatOn := true,
    recheckScheduled := false }

/-- A connected state whose hardware handle just dropped (port no longer
open), before any handler has run. -/
def connectedPortDown : Conn := { connectedState with portOpen := false }

/-- A state in which an unexpected disconnect has been confirmed: the
pending flag is still set and the heartbeat is stopped. -/
def pendingState : Conn :=
  { status := .DeviceDisconnected, portOpen := false, disconnectPending := true,
    intentionalDisconnect := false, heartbeatOn := false,
    recheckScheduled := false }

theorem hud_heartbeat (s : Conn) :
    (handleUnexpectedDisconnect s).heartbeatOn = s.heartbeatOn := by
  rw [handleUnexpectedDisconnect]; split <;> rfl

/-- Every event except a successful open keeps the heartbeat interval off
and emits no heartbeat invocation. -/
theorem step_keeps_heartbeat_off (s : Conn) (e : Event)
    (h : s.heartbeatOn = false) (hne : e ≠ Event.openResult true) :
    (step s e).1.heartbeatOn = false ∧
    Output.heartbeatInvoked ∉ (step s e).2 := by
  cases e with
  | errorSignal =>
    simp only [step]
    split
    · exact ⟨by rw [hud_heartbeat]; exact h, by simp⟩
    · exact ⟨h, by simp⟩
  | closeSignal =>
    simp only [step]
    split
    · exact ⟨by rw [hud_heartbeat]; exact h, by simp⟩
    · exact ⟨h, by simp⟩
  | debounceRecheck b =>
    simp only [step, debounceRecheckStep]
    split
    · split <;> exact ⟨by simp [h], by simp⟩
    · exact ⟨h, by simp⟩
  | connectCall => exact ⟨by simp [step, connectStep, h], by simp [step, connectStep]⟩
  | openResult ok =>
    cases ok with
    | true => exact absurd rfl hne
    | false => exact ⟨by simp [step, h], by simp [step]⟩
  | disconnectCall =>
    exact ⟨by simp [step, disconnectStep], by simp [step, disconnectStep]⟩
  | heartbeatTick => exact ⟨by simp [step, h], by simp [step, h]⟩

/-- Along any trace with no successful open, a state with the heartbeat
interval cleared never produces a heartbeat invocation. -/
theorem runTrace_no_heartbeat (evs : List Event) :
    ∀ s : Conn, s.heartbeatOn = false → Event.openResult true ∉ evs →
      Output.heartbeatInvoked ∉ (runTrace s evs).2 := by
  induction evs with
  | nil => intro s _ _; simp [runTrace]
  | cons e es ih =>
    intro s h hne
    have h1 := step_keeps_heartbeat_off s e h
      (by intro he; exact hne (he ▸ List.mem_cons_self _ _))
    have h2 := ih (step s e).1 h1.1 (fun hm => hne (List.mem_cons_of_mem _ hm))
    intro hc
    simp only [runTrace, List.mem_append] at hc
    rcases hc with hc | hc
    · exact h1.2 hc
    · exact h2 hc

/-! Lifecycle claim theorems. -/

/-- C3: When a close signal (or error signal with the port down)
arrives while connected with neither flag set: if the handle reports open
again at the 100 ms recheck, zero `DeviceDisconnected` notifications are
emitted, the pending flag is cleared and the status stays Connected; if the
handle is still closed at the recheck, exactly one `DeviceDisconnected`
notification is emitted. -/
theorem debounce_filters_spurious (s : Conn)
    (hst : s.status = DeviceStatus.DeviceConnected)
    (hp : s.disconnectPending = false)
    (hi : s.intentionalDisconnect = false) :
    (((step s .closeSignal).2
        ++ (step (step s .closeSignal).1 (.debounceRecheck true)).2).count
          (Output.statusNote .DeviceDisconnected) = 0
      ∧ (step (step s .closeSignal).1 (.debounceRecheck true)).1.disconnectPending
          = false
      ∧ (step (step s .closeSignal).1 (.debounceRecheck true)).1.status
          = DeviceStatus.DeviceConnected) ∧
    ((step s .closeSignal).2
        ++ (step (step s .closeSignal).1 (.debounceRecheck false)).2).count
          (Output.statusNote .DeviceDisconnected) = 1 ∧
    (s.portOpen = false →
      ((step s .errorSignal).2
          ++ (step (step s .errorSignal).1 (.debounceRecheck true)).2).count
            (Output.statusNote .DeviceDisconnected) = 0
        ∧ (step (step s .errorSignal).1 (.debounceRecheck true)).1.disconnectPending
            = false
        ∧ ((step s .errorSignal).2
            ++ (step (step s .errorSignal).1 (.debounceRecheck false)).2).count
              (Output.statusNote .DeviceDisconnected) = 1) := by
  refine ⟨⟨?_, ?_, ?_⟩, ?_, fun hpo => ⟨?_, ?_, ?_⟩⟩ <;>
    simp [step, handleUnexpectedDisconnect, debounceRecheckStep, hp, hi, hst,
      *]

/-- Witness for C3 at the concrete state `connectedPortDown`. -/
theorem debounce_filters_spurious_witness :
    ((step (step connectedPortDown .closeSignal).1
        (.debounceRecheck true)).1.disconnectPending = false) ∧
    ((step connectedPortDown .closeSignal).2
        ++ (step (step connectedPortDown .closeSignal).1
              (.debounceRecheck false)).2).count
          (Output.statusNote .DeviceDisconnected) = 1 :=
  ⟨(debounce_filters_spurious connectedPortDown rfl rfl rfl).1.2.1,
   (debounce_filters_spurious connectedPortDown rfl rfl rfl).2.1⟩

/-- C5 counterexample: Calling connect from the Connected state neither
fails nor refrains from opening: the step emits `openInitiated` (the code
has no AlreadyConnecting/AlreadyConnected guard at all). -/
theorem connect_no_state_guard :
    connectedState.status ≠ DeviceStatus.DeviceDisconnected ∧
    Output.openInitiated ∈ (step connectedState .connectCall).2 := by
  decide

/-- C5, amended: Calling connect in any state — Connecting or
Connected included — does not fail: it unconditionally clears the
intentional-disconnect and pending-disconnect flags, reports
`DeviceConnecting`, and begins opening a fresh hardware handle. -/
theorem connect_always_proceeds (s : Conn) :
    (step s .connectCall).1.disconnectPending = false ∧
    (step s .connectCall).1.intentionalDisconnect = false ∧
    (step s .connectCall).1.status = DeviceStatus.DeviceConnecting ∧
    (step s .connectCall).2
      = [.statusNote .DeviceConnecting, .openInitiated] := by
  simp [step, connectStep]

/-- C9: After `disconnect()` the heartbeat keep-alive action is never
invoked again: the interval is cancelled synchronously within the
disconnect step, and no later event short of a successful re-open re-arms
it, so every subsequent heartbeat tick is inert. -/
theorem no_heartbeat_after_disconnect (s : Conn) (evs : List Event)
    (h : Event.openResult true ∉ evs) :
    (step s .disconnectCall).1.heartbeatOn = false ∧
    Output.heartbeatInvoked ∉ (runTrace (step s .disconnectCall).1 evs).2 := by
  have hoff : (step s .disconnectCall).1.heartbeatOn = false := by
    simp [step, disconnectStep]
  exact ⟨hoff, runTrace_no_heartbeat evs _ hoff h⟩

/-- Witness for C9: pending ticks after a disconnect from `connectedState`
invoke nothing. -/
theorem no_heartbeat_after_disconnect_witness :
    Output.heartbeatInvoked ∉
      (runTrace (step connectedState .disconnectCall).1
        [.heartbeatTick, .closeSignal, .heartbeatTick]).2 :=
  (no_heartbeat_after_disconnect connectedState
    [.heartbeatTick, .closeSignal, .heartbeatTick] (by decide)).2

/-- C10: While the pending-disconnect flag is set — as it remains after
a confirmed unexpected disconnect, whose recheck does not clear it — every
further error or close signal is ignored (state unchanged, nothing
emitted), and only `connect()` resets the pending and intentional flags. -/
theorem pending_latches_signals (s : Conn) (h : s.disconnectPending = true) :
    (step s (.debounceRecheck false)).1.disconnectPending = true ∧
    step s .errorSignal = (s, []) ∧
    step s .closeSignal = (s, []) ∧
    (∀ evs : List Event,
      (∀ e ∈ evs, e = Event.errorSignal ∨ e = Event.closeSignal) →
      runTrace s evs = (s, [])) ∧
    (step s .connectCall).1.disconnectPending = false ∧
    (step s .connectCall).1.intentionalDisconnect = false := by
  have herr : step s .errorSignal = (s, []) := by simp [step, h]
  have hcls : step s .closeSignal = (s, []) := by simp [step, h]
  refine ⟨?_, herr, hcls, ?_, by simp [step, connectStep], by simp [step, connectStep]⟩
  · simp only [step, debounceRecheckStep]
    split
    · split
      · simp_all
      · simp [h]
    · exact h
  · intro evs
    induction evs with
    | nil => intro _; rfl
    | cons e es ih =>
      intro hall
      have he := hall e (List.mem_cons_self _ _)
      have hes := ih (fun e' he' => hall e' (List.mem_cons_of_mem _ he'))
      have hstep : step s e = (s, []) := by
        rcases he with rfl | rfl
        · exact herr
        · exact hcls
      simp [runTrace, hstep, hes]

/-- Witness for C10 at the concrete state `pendingState`. -/
theorem pending_latches_signals_witness :
    step pendingState .errorSignal = (pendingState, []) ∧
    runTrace pendingState [.errorSignal, .closeSignal] = (pendingState, []) ∧
    (step pendingState .connectCall).1.disconnectPending = false :=
  ⟨(pending_latches_signals pendingState rfl).2.1,
   (pending_latches_signals pendingState rfl).2.2.2.1
     [.errorSignal, .closeSignal] (by decide),
   (pending_latches_signals pendingState rfl).2.2.2.2.1⟩

end MeshSense
